import Mathlib

/-!
# TeaElephantMemory: the tea manager, its dispatch loop and the v1 record handlers

A shallow embedding of

* `internal/tea_manager/manager.go` (the mutation facade over a storage engine),
* `internal/tea_manager/loop.go` (the dispatch loop that fans events out to subscribers),
* `internal/server/api/v1/record_manager.go` (the v1 HTTP handlers),

followed by the properties proved about them.

Conventions.  A Go pointer `*common.Tea` is an `Option Tea` (`none` is `nil`); a Go `error`
is an `Option Err` (`none` is `nil`).  The storage engine is an interface in the source, so it
is a record of state-passing functions over an arbitrary state type `S`.  A buffered channel
is its capacity and its queue; a channel operation that cannot proceed is `none`, and a
method whose goroutine parks on such an operation has the outcome `blocked`.
-/

namespace TeaElephant

/-! ## Channels -/

/-- A buffered Go channel: its capacity and the queued elements, oldest first. -/
structure Chan (α : Type) where
  cap : Nat
  buf : List α
deriving DecidableEq, Repr

/-- Go `make(chan α, cap)`. -/
def Chan.make (α : Type) (cap : Nat) : Chan α :=
  { cap := cap, buf := [] }

/-- Go `c <- v` on a buffered channel: enabled while the queue is shorter than the
capacity, and then `v` goes to the tail; `none` when the sender has to block. -/
def Chan.send {α : Type} (c : Chan α) (v : α) : Option (Chan α) :=
  if c.buf.length < c.cap then some { c with buf := c.buf ++ [v] } else none

/-- Go `<-c`: enabled when the queue is not empty, and then takes its head. -/
def Chan.recv {α : Type} (c : Chan α) : Option (α × Chan α) :=
  match c.buf with
  | [] => none
  | v :: rest => some (v, { c with buf := rest })

/-! ## The storage interface and the manager -/

/-- The `storage` interface of `manager.go`, as state-passing functions over the engine
state `S`.  Each method returns what the Go method returns, and the next engine state. -/
structure storage (S Ctx TeaData Tea Err ID : Type) where
  WriteRecord : S → Ctx → TeaData → (Option Tea × Option Err) × S
  ReadRecord : S → Ctx → ID → (Option Tea × Option Err) × S
  ReadAllRecords : S → Ctx → String → (List Tea × Option Err) × S
  Update : S → Ctx → ID → TeaData → (Option Tea × Option Err) × S
  Delete : S → Ctx → ID → Option Err × S

/-- The `manager` struct: the engine state, the three subscriber registries (the channels
the loop ranges over) and the three event channels. -/
structure manager (S Tea ID Sub : Type) where
  /-- The state of the embedded `storage` engine. -/
  storageState : S
  createSubscribers : List Sub
  updateSubscribers : List Sub
  deleteSubscribers : List Sub
  create : Chan (Option Tea)
  update : Chan (Option Tea)
  delete : Chan ID

/-- How a method call ends: it returns `ret` in state `m`, or its goroutine is parked on a
channel send in state `m`. -/
inductive Outcome (ρ μ : Type) where
  | returned (ret : ρ) (m : μ)
  | blocked (m : μ)

section Manager

variable {S Ctx TeaData Tea Err ID Sub : Type}

/-- `NewManager`: the three event channels are `make(chan _, 100)`.  The registries come
from the `subscribers` package, which is not part of the sources at hand, so their initial
contents are parameters. -/
def NewManager (s : S) (cs us ds : List Sub) : manager S Tea ID Sub :=
  { storageState := s
    createSubscribers := cs
    updateSubscribers := us
    deleteSubscribers := ds
    create := Chan.make (Option Tea) 100
    update := Chan.make (Option Tea) 100
    delete := Chan.make ID 100 }

/-- `manager.Get`. -/
def manager.Get (σ : storage S Ctx TeaData Tea Err ID) (m : manager S Tea ID Sub) (ctx : Ctx)
    (id : ID) : (Option Tea × Option Err) × manager S Tea ID Sub :=
  let r := σ.ReadRecord m.storageState ctx id
  (r.1, { m with storageState := r.2 })

/-- `manager.Create`. -/
def manager.Create (σ : storage S Ctx TeaData Tea Err ID) (m : manager S Tea ID Sub) (ctx : Ctx)
    (data : TeaData) : Outcome (Option Tea × Option Err) (manager S Tea ID Sub) :=
  let r := σ.WriteRecord m.storageState ctx data
  let m1 := { m with storageState := r.2 }
  match r.1.2 with
  | some err => .returned (none, some err) m1
  | none =>
    match m1.create.send r.1.1 with
    | some c => .returned (r.1.1, none) { m1 with create := c }
    | none => .blocked m1

/-- `manager.Update`. -/
def manager.Update (σ : storage S Ctx TeaData Tea Err ID) (m : manager S Tea ID Sub) (ctx : Ctx)
    (id : ID) (rec : TeaData) : Outcome (Option Tea × Option Err) (manager S Tea ID Sub) :=
  let r := σ.Update m.storageState ctx id rec
  let m1 := { m with storageState := r.2 }
  match r.1.2 with
  | some err => .returned (none, some err) m1
  | none =>
    match m1.update.send r.1.1 with
    | some c => .returned (r.1.1, none) { m1 with update := c }
    | none => .blocked m1

/-- `manager.Delete`. -/
def manager.Delete (σ : storage S Ctx TeaData Tea Err ID) (m : manager S Tea ID Sub) (ctx : Ctx)
    (id : ID) : Outcome (Option Err) (manager S Tea ID Sub) :=
  let r := σ.Delete m.storageState ctx id
  let m1 := { m with storageState := r.2 }
  match r.1 with
  | some err => .returned (some err) m1
  | none =>
    match m1.delete.send id with
    | some c => .returned none { m1 with delete := c }
    | none => .blocked m1

/-- One call on the storage interface, with its arguments. -/
inductive Call (Ctx TeaData ID : Type) where
  | WriteRecord (ctx : Ctx) (rec : TeaData)
  | ReadRecord (ctx : Ctx) (id : ID)
  | ReadAllRecords (ctx : Ctx) (search : String)
  | Update (ctx : Ctx) (id : ID) (rec : TeaData)
  | Delete (ctx : Ctx) (id : ID)
deriving DecidableEq, Repr

/-- A storage engine that behaves as `σ` and also records every call made on it, in
order: the engine state is paired with the log of calls. -/
def spy (σ : storage S Ctx TeaData Tea Err ID) :
    storage (S × List (Call Ctx TeaData ID)) Ctx TeaData Tea Err ID :=
  { WriteRecord := fun s ctx rec =>
      ((σ.WriteRecord s.1 ctx rec).1, ((σ.WriteRecord s.1 ctx rec).2, s.2 ++ [.WriteRecord ctx rec]))
    ReadRecord := fun s ctx id =>
      ((σ.ReadRecord s.1 ctx id).1, ((σ.ReadRecord s.1 ctx id).2, s.2 ++ [.ReadRecord ctx id]))
    ReadAllRecords := fun s ctx search =>
      ((σ.ReadAllRecords s.1 ctx search).1,
        ((σ.ReadAllRecords s.1 ctx search).2, s.2 ++ [.ReadAllRecords ctx search]))
    Update := fun s ctx id rec =>
      ((σ.Update s.1 ctx id rec).1, ((σ.Update s.1 ctx id rec).2, s.2 ++ [.Update ctx id rec]))
    Delete := fun s ctx id =>
      ((σ.Delete s.1 ctx id).1, ((σ.Delete s.1 ctx id).2, s.2 ++ [.Delete ctx id])) }

/-- The manager `m` seen over the recording engine, with `log` the calls recorded so far. -/
def spied (m : manager S Tea ID Sub) (log : List (Call Ctx TeaData ID)) :
    manager (S × List (Call Ctx TeaData ID)) Tea ID Sub :=
  { storageState := (m.storageState, log)
    createSubscribers := m.createSubscribers
    updateSubscribers := m.updateSubscribers
    deleteSubscribers := m.deleteSubscribers
    create := m.create
    update := m.update
    delete := m.delete }

end Manager

/-! ## The dispatch loop (`loop.go`) -/

/-- The three event kinds; each has its own event channel, registry and lock. -/
inductive Kind where
  | create
  | update
  | delete
deriving DecidableEq, Repr

/-- What travels on a subscriber channel: a `*model.Tea` on a create or update subscriber,
an identifier on a delete subscriber. -/
inductive Payload (MTea ID : Type) where
  | tea (t : MTea)
  | id (i : ID)
deriving DecidableEq, Repr

/-- The statements of one `select` case of the loop, as the actions they perform:
`m.muX.RLock()`, `el <- v` for the element `el` of the registry of kind `k`, and
`m.muX.RUnlock()`. -/
inductive Action (MTea ID Sub : Type) where
  | RLock (k : Kind)
  | send (k : Kind) (el : Sub) (p : Payload MTea ID)
  | RUnlock (k : Kind)
deriving DecidableEq, Repr

section Loop

variable {S Ctx TeaData Tea Err ID Sub MTea : Type}

/-- One iteration of the `for { select { ... } }` of `manager.loop` in which `select`
takes the case of kind `k`: that case is ready only when its channel has an element.  The
result is the manager after the receive and the actions of the case body, in program
order.  `FromCommonTea` is `model.FromCommonTea`, a conversion defined outside the sources
at hand. -/
def manager.loop (FromCommonTea : Option Tea → MTea) (m : manager S Tea ID Sub) (k : Kind) :
    Option (manager S Tea ID Sub × List (Action MTea ID Sub)) :=
  match k with
  | .create =>
    match m.create.recv with
    | none => none
    | some (tea, c) =>
      some ({ m with create := c },
        [Action.RLock .create]
          ++ m.createSubscribers.map (fun el => Action.send .create el (.tea (FromCommonTea tea)))
          ++ [Action.RUnlock .create])
  | .update =>
    match m.update.recv with
    | none => none
    | some (tea, c) =>
      some ({ m with update := c },
        [Action.RLock .update]
          ++ m.updateSubscribers.map (fun el => Action.send .update el (.tea (FromCommonTea tea)))
          ++ [Action.RUnlock .update])
  | .delete =>
    match m.delete.recv with
    | none => none
    | some (id, c) =>
      some ({ m with delete := c },
        [Action.RLock .delete]
          ++ m.deleteSubscribers.map (fun el => Action.send .delete el (.id id))
          ++ [Action.RUnlock .delete])

/-- The registry of kind `k`. -/
def manager.subscribers (m : manager S Tea ID Sub) : Kind → List Sub
  | .create => m.createSubscribers
  | .update => m.updateSubscribers
  | .delete => m.deleteSubscribers

/-- The sends of kind `k` among `acts`, as (subscriber, payload) pairs, in order. -/
def sends (k : Kind) (acts : List (Action MTea ID Sub)) :
    List (Sub × Payload MTea ID) :=
  acts.filterMap fun a =>
    match a with
    | .send k1 el p => if k1 = k then some (el, p) else none
    | _ => none

/-- What subscriber `el` receives on kind `k` when `acts` are performed, in order. -/
def receivedBy [DecidableEq Sub] (k : Kind) (el : Sub) (acts : List (Action MTea ID Sub)) :
    List (Payload MTea ID) :=
  (sends k acts).filterMap fun x => if x.1 = el then some x.2 else none

/-- Whether an action is a send to a subscriber channel. -/
def Action.isSend : Action MTea ID Sub → Bool
  | .send _ _ _ => true
  | _ => false

/-- Whether some send lies strictly between an `RLock k` and the next `RUnlock k` in `acts`;
`held` says whether the lock is held at the start. -/
def sendUnderRLock (k : Kind) : Bool → List (Action MTea ID Sub) → Bool
  | _, [] => false
  | held, a :: rest =>
    match a with
    | .RLock k1 => sendUnderRLock k (if k1 = k then true else held) rest
    | .RUnlock k1 => sendUnderRLock k (if k1 = k then false else held) rest
    | .send _ _ _ => held || sendUnderRLock k held rest

end Loop

/-! ## Callers and the loop running together -/

/-- An event on its way from a caller to the loop: the record a successful `Create` or
`Update` got from storage, or the identifier a successful `Delete` was given. -/
inductive Event (Tea ID : Type) where
  | Created (tea : Option Tea)
  | Updated (tea : Option Tea)
  | Deleted (id : ID)
deriving DecidableEq, Repr

/-- What a caller or the loop does next.  `Create`, `Update` and `Delete` are a caller
running the method up to its channel send (the storage call and the error check);
`publish ev` is a caller that holds `ev` completing its send and returning; `select k` is
the loop, at its `select`, taking the case of kind `k`; `act` is the loop performing the
next statement of the case it is in. -/
inductive Label (Ctx TeaData Tea ID : Type) where
  | Create (ctx : Ctx) (data : TeaData)
  | Update (ctx : Ctx) (id : ID) (rec : TeaData)
  | Delete (ctx : Ctx) (id : ID)
  | publish (ev : Event Tea ID)
  | select (k : Kind)
  | act
deriving DecidableEq, Repr

/-- The manager together with its goroutines: `pending` are the events held by callers
whose storage call succeeded and who have not completed their send yet, `loop` the
statements left in the case the loop is in (`[]` when it is at its `select`), and `trace`
the actions the loop has performed so far. -/
structure System (S Tea ID Sub MTea : Type) where
  m : manager S Tea ID Sub
  pending : List (Event Tea ID)
  loop : List (Action MTea ID Sub)
  trace : List (Action MTea ID Sub)

section Sys

variable {S Ctx TeaData Tea Err ID Sub MTea : Type}

/-- The kind of an event. -/
def Event.kind : Event Tea ID → Kind
  | .Created _ => .create
  | .Updated _ => .update
  | .Deleted _ => .delete

/-- The payload the loop sends for an event: `model.FromCommonTea(tea)` or the identifier. -/
def Event.payload (FromCommonTea : Option Tea → MTea) : Event Tea ID → Payload MTea ID
  | .Created tea => .tea (FromCommonTea tea)
  | .Updated tea => .tea (FromCommonTea tea)
  | .Deleted id => .id id

/-- The queue of the event channel of kind `k`, as events. -/
def manager.queue (m : manager S Tea ID Sub) : Kind → List (Event Tea ID)
  | .create => m.create.buf.map .Created
  | .update => m.update.buf.map .Updated
  | .delete => m.delete.buf.map .Deleted

/-- The channel send that ends `Create`, `Update` and `Delete`: `m.create <- res`,
`m.update <- res`, `m.delete <- id`. -/
def manager.publish (m : manager S Tea ID Sub) : Event Tea ID → Option (manager S Tea ID Sub)
  | .Created tea =>
    match m.create.send tea with
    | some c => some { m with create := c }
    | none => none
  | .Updated tea =>
    match m.update.send tea with
    | some c => some { m with update := c }
    | none => none
  | .Deleted id =>
    match m.delete.send id with
    | some c => some { m with delete := c }
    | none => none

/-- One step of the system; `none` when the step is not enabled (the goroutine that
would take it is blocked, or there is no such goroutine). -/
def System.step [DecidableEq Tea] [DecidableEq ID] (σ : storage S Ctx TeaData Tea Err ID)
    (FromCommonTea : Option Tea → MTea) (st : System S Tea ID Sub MTea) :
    Label Ctx TeaData Tea ID → Option (System S Tea ID Sub MTea)
  | .Create ctx data =>
    let r := σ.WriteRecord st.m.storageState ctx data
    let m1 := { st.m with storageState := r.2 }
    match r.1.2 with
    | some _ => some { st with m := m1 }
    | none => some { st with m := m1, pending := st.pending ++ [.Created r.1.1] }
  | .Update ctx id rec =>
    let r := σ.Update st.m.storageState ctx id rec
    let m1 := { st.m with storageState := r.2 }
    match r.1.2 with
    | some _ => some { st with m := m1 }
    | none => some { st with m := m1, pending := st.pending ++ [.Updated r.1.1] }
  | .Delete ctx id =>
    let r := σ.Delete st.m.storageState ctx id
    let m1 := { st.m with storageState := r.2 }
    match r.1 with
    | some _ => some { st with m := m1 }
    | none => some { st with m := m1, pending := st.pending ++ [.Deleted id] }
  | .publish ev =>
    if ev ∈ st.pending then
      match st.m.publish ev with
      | some m1 => some { st with m := m1, pending := st.pending.erase ev }
      | none => none
    else none
  | .select k =>
    match st.loop with
    | [] =>
      match st.m.loop FromCommonTea k with
      | some (m1, acts) => some { st with m := m1, loop := acts }
      | none => none
    | _ :: _ => none
  | .act =>
    match st.loop with
    | [] => none
    | a :: rest => some { st with loop := rest, trace := st.trace ++ [a] }

/-- Run the steps `ls` in order; `none` as soon as one of them is not enabled. -/
def System.exec [DecidableEq Tea] [DecidableEq ID] (σ : storage S Ctx TeaData Tea Err ID)
    (FromCommonTea : Option Tea → MTea) (st : System S Tea ID Sub MTea) :
    List (Label Ctx TeaData Tea ID) → Option (System S Tea ID Sub MTea)
  | [] => some st
  | l :: ls =>
    match st.step σ FromCommonTea l with
    | some st1 => System.exec σ FromCommonTea st1 ls
    | none => none

/-- The system right after `NewManager` and `Start`: nothing queued, no caller in
flight, the loop at its `select`. -/
def System.init (s : S) (cs us ds : List Sub) : System S Tea ID Sub MTea :=
  { m := NewManager s cs us ds, pending := [], loop := [], trace := [] }

/-- The events of kind `k` enqueued by the steps `ls`, in the order of their sends. -/
def published (k : Kind) (ls : List (Label Ctx TeaData Tea ID)) : List (Event Tea ID) :=
  ls.filterMap fun l =>
    match l with
    | .publish ev => if ev.kind = k then some ev else none
    | _ => none

/-- The capacity of the event channel of kind `k`. -/
def manager.cap (m : manager S Tea ID Sub) : Kind → Nat
  | .create => m.create.cap
  | .update => m.update.cap
  | .delete => m.delete.cap

/-- The steps of `j` iterations of the loop that all take the case of kind `k`, each
followed by the `n` statements of its body. -/
def drain (k : Kind) (n j : Nat) : List (Label Ctx TeaData Tea ID) :=
  (List.replicate j (Label.select k :: List.replicate n Label.act)).flatten

/-- The body of the case of kind `k` on the event `ev` with the registry `subs`. -/
def caseBody (FromCommonTea : Option Tea → MTea) (k : Kind)
    (subs : List Sub) (ev : Event Tea ID) : List (Action MTea ID Sub) :=
  Action.RLock k
    :: (subs.map (fun el => Action.send k el (ev.payload FromCommonTea)) ++ [Action.RUnlock k])

/-- Whether a step is taken by the loop. -/
def Label.isLoop : Label Ctx TeaData Tea ID → Bool
  | .select _ => true
  | .act => true
  | _ => false

end Sys

/-! ## The v1 record handlers (`record_manager.go`) -/

/-- Go `common.Error`: an HTTP status code and the error it reports. -/
structure Error (Err : Type) where
  Code : Nat
  Msg : Err
deriving DecidableEq, Repr

/-- Go `http.StatusBadRequest`. -/
def StatusBadRequest : Nat := 400

/-- Go `http.StatusInternalServerError`. -/
def StatusInternalServerError : Nat := 500

/-- The `Storage` interface of the v1 handlers (identifiers are strings, no context). -/
structure Storage (S TeaData Tea Err : Type) where
  WriteRecord : S → TeaData → (Option Tea × Option Err) × S
  ReadRecord : S → String → (Option Tea × Option Err) × S
  ReadAllRecords : S → String → (List Tea × Option Err) × S
  Update : S → String → TeaData → (Option Tea × Option Err) × S
  Delete : S → String → Option Err × S

/-- The value handed to `transport.Response`: a record, or the `struct{ID string}` of
`DeleteRecord`. -/
inductive Answer (Tea : Type) where
  | record (rec : Option Tea)
  | id (ID : String)
deriving DecidableEq, Repr

/-- A call a handler makes on the response writer: `m.ResponseError(w, err)` or
`m.transport.Response(w, answer)`. -/
inductive Emit (Tea Err : Type) where
  | ResponseError (err : Error Err)
  | Response (answer : Answer Tea)
deriving DecidableEq, Repr

/-- The `RecordManager` struct: the storage interface and the transport; of the transport,
the error `Response` returns for an answer.  (`ResponseError` returns nothing.) -/
structure RecordManager (S TeaData Tea Err : Type) where
  Storage : Storage S TeaData Tea Err
  Response : Answer Tea → Option Err

/-- What a handler reads from its `*http.Request`: `mux.Vars(r)["id"]` and the result of
`ioutil.ReadAll(r.Body)`. -/
structure Request (Bytes Err : Type) where
  id : String
  body : Bytes × Option Err

section Handlers

variable {S TeaData Tea Err Bytes : Type}

/-- `RecordManager.ReadRecord`: the calls made on the response writer, in order, and the
storage state afterwards.  `errorEmptyID` is the package variable of that name. -/
def RecordManager.ReadRecord (errorEmptyID : Err) (m : RecordManager S TeaData Tea Err) (s : S)
    (r : Request Bytes Err) : List (Emit Tea Err) × S :=
  if r.id = "" then
    ([.ResponseError { Code := StatusBadRequest, Msg := errorEmptyID }], s)
  else
    let x := m.Storage.ReadRecord s r.id
    match x.1.2 with
    | some err => ([.ResponseError { Code := StatusInternalServerError, Msg := err }], x.2)
    | none =>
      match m.Response (.record x.1.1) with
      | some err =>
        ([.Response (.record x.1.1),
          .ResponseError { Code := StatusInternalServerError, Msg := err }], x.2)
      | none => ([.Response (.record x.1.1)], x.2)

/-- `RecordManager.UpdateRecord`; `Unmarshal` is `json.Unmarshal` into a fresh
`common.TeaData`. -/
def RecordManager.UpdateRecord (errorEmptyID : Err) (Unmarshal : Bytes → TeaData × Option Err)
    (m : RecordManager S TeaData Tea Err) (s : S) (r : Request Bytes Err) :
    List (Emit Tea Err) × S :=
  if r.id = "" then
    ([.ResponseError { Code := StatusBadRequest, Msg := errorEmptyID }], s)
  else
    match r.body.2 with
    | some err => ([.ResponseError { Code := StatusBadRequest, Msg := err }], s)
    | none =>
      match (Unmarshal r.body.1).2 with
      | some err => ([.ResponseError { Code := StatusInternalServerError, Msg := err }], s)
      | none =>
        let x := m.Storage.Update s r.id (Unmarshal r.body.1).1
        match x.1.2 with
        | some err => ([.ResponseError { Code := StatusInternalServerError, Msg := err }], x.2)
        | none =>
          match m.Response (.record x.1.1) with
          | some err =>
            ([.Response (.record x.1.1),
              .ResponseError { Code := StatusInternalServerError, Msg := err }], x.2)
          | none => ([.Response (.record x.1.1)], x.2)

/-- `RecordManager.DeleteRecord`.  The branch for a storage error has no `return`: the
handler goes on to the `Response` call. -/
def RecordManager.DeleteRecord (errorEmptyID : Err) (m : RecordManager S TeaData Tea Err) (s : S)
    (r : Request Bytes Err) : List (Emit Tea Err) × S :=
  if r.id = "" then
    ([.ResponseError { Code := StatusBadRequest, Msg := errorEmptyID }], s)
  else
    let x := m.Storage.Delete s r.id
    let onErr : List (Emit Tea Err) :=
      match x.1 with
      | some err => [.ResponseError { Code := StatusInternalServerError, Msg := err }]
      | none => []
    match m.Response (.id r.id) with
    | some err =>
      (onErr ++ [.Response (.id r.id),
        .ResponseError { Code := StatusInternalServerError, Msg := err }], x.2)
    | none => (onErr ++ [.Response (.id r.id)], x.2)

end Handlers

/-! ## Reading an outcome, and a small engine to run the definitions on -/

/-- What a call returned, if it returned. -/
def Outcome.ret {ρ μ : Type} : Outcome ρ μ → Option ρ
  | .returned r _ => some r
  | .blocked _ => none

/-- The manager state at the end of a call: at its return, or where it is parked. -/
def Outcome.state {ρ μ : Type} : Outcome ρ μ → μ
  | .returned _ m => m
  | .blocked m => m

/-- Whether the call is parked on its channel send. -/
def Outcome.isBlocked {ρ μ : Type} : Outcome ρ μ → Bool
  | .returned _ _ => false
  | .blocked _ => true

/-- An in-memory engine: the state is the list of stored records, a record is an
identifier and a name, both numbers; the context is trivial.  Writing the name `0` fails
with error `1`; an unknown identifier fails with error `404`. -/
def memStorage : storage (List (Nat × Nat)) Unit Nat (Nat × Nat) Nat Nat :=
  { WriteRecord := fun s _ data =>
      if data = 0 then ((none, some 1), s)
      else ((some (s.length, data), none), s ++ [(s.length, data)])
    ReadRecord := fun s _ id =>
      match s.find? (fun t => t.1 == id) with
      | some t => ((some t, none), s)
      | none => ((none, some 404), s)
    ReadAllRecords := fun s _ _ => ((s, none), s)
    Update := fun s _ id data =>
      if s.any (fun t => t.1 == id) then
        ((some (id, data), none), s.map (fun t => if t.1 = id then (id, data) else t))
      else ((none, some 404), s)
    Delete := fun s _ id =>
      if s.any (fun t => t.1 == id) then (none, s.filter (fun t => t.1 != id))
      else (some 404, s) }

/-- A manager over `memStorage` holding the record `(0, 7)`, with two subscribers on each
kind and empty event channels of capacity 100. -/
def memManager : manager (List (Nat × Nat)) (Nat × Nat) Nat Nat :=
  NewManager [(0, 7)] [1, 2] [3, 4] [5, 6]

/-- The manager `memManager` with events queued on each channel: two on create, one on
update, one on delete. -/
def queuedManager : manager (List (Nat × Nat)) (Nat × Nat) Nat Nat :=
  { memManager with
    create := { cap := 100, buf := [some (1, 8), some (2, 9)] }
    update := { cap := 100, buf := [some (0, 5)] }
    delete := { cap := 100, buf := [0] } }

/-- A stand-in for `model.FromCommonTea` on the records of `memStorage`: the name of the
record, `0` for a nil record. -/
def nameOf : Option (Nat × Nat) → Nat
  | some t => t.2
  | none => 0


/-- A hundred successful `Create` calls on `memStorage`, each running to completion: the
storage call of the `i`-th one returns the record `(i, 8)`, which it then publishes. -/
def hundredCreates : List (Label Unit Nat (Nat × Nat) Nat) :=
  (List.range 100).flatMap fun i => [Label.Create () 8, Label.publish (.Created (some (i, 8)))]

/-- The system over `memStorage`, started on an empty store, after `hundredCreates`: a
hundred records stored, the hundred events queued on the create channel. -/
def fullSystem : System (List (Nat × Nat)) (Nat × Nat) Nat Nat Nat :=
  { m :=
      { storageState := (List.range 100).map fun i => (i, 8)
        createSubscribers := [1, 2]
        updateSubscribers := [3, 4]
        deleteSubscribers := [5, 6]
        create := { cap := 100, buf := (List.range 100).map fun i => some (i, 8) }
        update := { cap := 100, buf := [] }
        delete := { cap := 100, buf := [] } }
    pending := []
    loop := []
    trace := [] }

/-- An execution over `memStorage` in which callers and the loop interleave: two records
are created and published, the first is dispatched while the second is being published,
an update is published, and the second fan-out has reached subscriber `1` only. -/
def mixedRun : List (Label Unit Nat (Nat × Nat) Nat) :=
  [.Create () 8, .publish (.Created (some (0, 8))), .Create () 9, .select .create, .act, .act,
    .publish (.Created (some (1, 9))), .Update () 0 5, .publish (.Updated (some (0, 5))),
    .act, .act, .select .create, .act, .act]

/-- The state `mixedRun` leads to from the empty store. -/
def mixedSystem : System (List (Nat × Nat)) (Nat × Nat) Nat Nat Nat :=
  { m :=
      { storageState := [(0, 5), (1, 9)]
        createSubscribers := [1, 2]
        updateSubscribers := [3, 4]
        deleteSubscribers := [5, 6]
        create := { cap := 100, buf := [] }
        update := { cap := 100, buf := [some (0, 5)] }
        delete := { cap := 100, buf := [] } }
    pending := []
    loop := [.send .create 2 (.tea 9), .RUnlock .create]
    trace := [.RLock .create, .send .create 1 (.tea 8), .send .create 2 (.tea 8),
      .RUnlock .create, .RLock .create, .send .create 1 (.tea 9)] }

/-- The state right after one `Create` has run to completion on the empty store: the
record `(0, 8)` is stored and its event is queued; the loop has not moved. -/
def createdSystem : System (List (Nat × Nat)) (Nat × Nat) Nat Nat Nat :=
  { m :=
      { storageState := [(0, 8)]
        createSubscribers := [1, 2]
        updateSubscribers := [3, 4]
        deleteSubscribers := [5, 6]
        create := { cap := 100, buf := [some (0, 8)] }
        update := { cap := 100, buf := [] }
        delete := { cap := 100, buf := [] } }
    pending := []
    loop := []
    trace := [] }


/-- A v1 record manager over an in-memory engine: the state is the list of stored
records, a record is an identifier and a name; an unknown identifier fails with the error
"not found"; the transport never fails. -/
def memRecords : RecordManager (List (String × Nat)) Nat (String × Nat) String :=
  { Storage :=
      { WriteRecord := fun s data => ((some ("new", data), none), s ++ [("new", data)])
        ReadRecord := fun s id =>
          match s.find? (fun t => t.1 == id) with
          | some t => ((some t, none), s)
          | none => ((none, some "not found"), s)
        ReadAllRecords := fun s _ => ((s, none), s)
        Update := fun s id data =>
          if s.any (fun t => t.1 == id) then
            ((some (id, data), none), s.map (fun t => if t.1 = id then (id, data) else t))
          else ((none, some "not found"), s)
        Delete := fun s id =>
          if s.any (fun t => t.1 == id) then (none, s.filter (fun t => t.1 != id))
          else (some "not found", s) }
    Response := fun _ => none }

/-- A request for the identifier `r9`, which `memRecords` does not hold when its store is
`[("r1", 7)]`; the body reads as the bytes `[5]`. -/
def unknownIdRequest : Request (List Nat) String :=
  { id := "r9", body := ([5], none) }

/-- A stand-in for `json.Unmarshal` on `unknownIdRequest`: the name is the sum of the
bytes, and decoding never fails. -/
def sumBytes (b : List Nat) : Nat × Option String :=
  (b.sum, none)

/-! ## `manager.List`

Stated last among the definitions: from here on the name `List` inside the `manager`
namespace is this method. -/

section ManagerList

variable {S Ctx TeaData Tea Err ID Sub : Type}

/-- `manager.List`; `search` is the Go `*string`. -/
def manager.List (σ : storage S Ctx TeaData Tea Err ID) (m : manager S Tea ID Sub) (ctx : Ctx)
    (search : Option String) : (List Tea × Option Err) × manager S Tea ID Sub :=
  match search with
  | none =>
    let r := σ.ReadAllRecords m.storageState ctx ""
    (r.1, { m with storageState := r.2 })
  | some str =>
    let r := σ.ReadAllRecords m.storageState ctx str
    (r.1, { m with storageState := r.2 })

end ManagerList

/-! # Properties -/

section ManagerProperties

variable {S Ctx TeaData Tea Err ID Sub : Type}

/-- C1: when the storage call made by `Create`, `Update` or `Delete` returns an error, the
method returns that very error (with a nil record for `Create` and `Update`), and the
three event channels are what they were before the call: nothing is published. -/
theorem storage_error_returned_nothing_published (σ : storage S Ctx TeaData Tea Err ID)
    (m : manager S Tea ID Sub) (ctx : Ctx) (id : ID) (data : TeaData) (e : Err) :
    ((σ.WriteRecord m.storageState ctx data).1.2 = some e →
        (m.Create σ ctx data).ret = some (none, some e)
        ∧ (m.Create σ ctx data).state.create = m.create
        ∧ (m.Create σ ctx data).state.update = m.update
        ∧ (m.Create σ ctx data).state.delete = m.delete)
    ∧ ((σ.Update m.storageState ctx id data).1.2 = some e →
        (m.Update σ ctx id data).ret = some (none, some e)
        ∧ (m.Update σ ctx id data).state.create = m.create
        ∧ (m.Update σ ctx id data).state.update = m.update
        ∧ (m.Update σ ctx id data).state.delete = m.delete)
    ∧ ((σ.Delete m.storageState ctx id).1 = some e →
        (m.Delete σ ctx id).ret = some (some e)
        ∧ (m.Delete σ ctx id).state.create = m.create
        ∧ (m.Delete σ ctx id).state.update = m.update
        ∧ (m.Delete σ ctx id).state.delete = m.delete) := by
  refine ⟨fun h => ?_, fun h => ?_, fun h => ?_⟩
  · simp [manager.Create, h, Outcome.ret, Outcome.state]
  · simp [manager.Update, h, Outcome.ret, Outcome.state]
  · simp [manager.Delete, h, Outcome.ret, Outcome.state]

theorem storage_error_returned_nothing_published_witness :
    ((memManager.Create memStorage () 0).ret = some (none, some 1)
      ∧ (memManager.Create memStorage () 0).state.create = memManager.create
      ∧ (memManager.Create memStorage () 0).state.update = memManager.update
      ∧ (memManager.Create memStorage () 0).state.delete = memManager.delete)
    ∧ ((memManager.Update memStorage () 9 5).ret = some (none, some 404)
      ∧ (memManager.Update memStorage () 9 5).state.create = memManager.create
      ∧ (memManager.Update memStorage () 9 5).state.update = memManager.update
      ∧ (memManager.Update memStorage () 9 5).state.delete = memManager.delete)
    ∧ ((memManager.Delete memStorage () 9).ret = some (some 404)
      ∧ (memManager.Delete memStorage () 9).state.create = memManager.create
      ∧ (memManager.Delete memStorage () 9).state.update = memManager.update
      ∧ (memManager.Delete memStorage () 9).state.delete = memManager.delete) :=
  ⟨(storage_error_returned_nothing_published memStorage memManager () 9 0 1).1 (by decide),
    (storage_error_returned_nothing_published memStorage memManager () 9 5 404).2.1 (by decide),
    (storage_error_returned_nothing_published memStorage memManager () 9 5 404).2.2 (by decide)⟩

/-- C2: when the create (resp. update) channel holds fewer events than its capacity and the
storage `WriteRecord` (resp. `Update`) succeeds with record `r`, `Create` (resp. `Update`)
returns `r` and no error, makes exactly one call on storage (that one), and appends exactly
one event, `r` itself, at the tail of the create (resp. update) channel; the other two
channels are unchanged. -/
theorem create_update_publish_once (σ : storage S Ctx TeaData Tea Err ID)
    (m : manager S Tea ID Sub) (ctx : Ctx) (id : ID) (data : TeaData) (r : Option Tea)
    (log : List (Call Ctx TeaData ID)) :
    (m.create.buf.length < m.create.cap →
      (σ.WriteRecord m.storageState ctx data).1 = (r, none) →
        (m.Create σ ctx data).ret = some (r, none)
        ∧ (m.Create σ ctx data).state.storageState = (σ.WriteRecord m.storageState ctx data).2
        ∧ ((spied m log).Create (spy σ) ctx data).state.storageState.2
            = log ++ [Call.WriteRecord ctx data]
        ∧ (m.Create σ ctx data).state.create.buf = m.create.buf ++ [r]
        ∧ (m.Create σ ctx data).state.create.cap = m.create.cap
        ∧ (m.Create σ ctx data).state.update = m.update
        ∧ (m.Create σ ctx data).state.delete = m.delete)
    ∧ (m.update.buf.length < m.update.cap →
      (σ.Update m.storageState ctx id data).1 = (r, none) →
        (m.Update σ ctx id data).ret = some (r, none)
        ∧ (m.Update σ ctx id data).state.storageState = (σ.Update m.storageState ctx id data).2
        ∧ ((spied m log).Update (spy σ) ctx id data).state.storageState.2
            = log ++ [Call.Update ctx id data]
        ∧ (m.Update σ ctx id data).state.update.buf = m.update.buf ++ [r]
        ∧ (m.Update σ ctx id data).state.update.cap = m.update.cap
        ∧ (m.Update σ ctx id data).state.create = m.create
        ∧ (m.Update σ ctx id data).state.delete = m.delete) := by
  refine ⟨fun hlen h => ?_, fun hlen h => ?_⟩
  · have h1 : (σ.WriteRecord m.storageState ctx data).1.1 = r := by rw [h]
    have h2 : (σ.WriteRecord m.storageState ctx data).1.2 = none := by rw [h]
    simp [manager.Create, spy, spied, Chan.send, hlen, h1, h2, Outcome.ret, Outcome.state]
  · have h1 : (σ.Update m.storageState ctx id data).1.1 = r := by rw [h]
    have h2 : (σ.Update m.storageState ctx id data).1.2 = none := by rw [h]
    simp [manager.Update, spy, spied, Chan.send, hlen, h1, h2, Outcome.ret, Outcome.state]

theorem create_update_publish_once_witness :
    ((memManager.Create memStorage () 8).ret = some (some (1, 8), none)
      ∧ (memManager.Create memStorage () 8).state.storageState
          = (memStorage.WriteRecord memManager.storageState () 8).2
      ∧ ((spied memManager []).Create (spy memStorage) () 8).state.storageState.2
          = [] ++ [Call.WriteRecord () 8]
      ∧ (memManager.Create memStorage () 8).state.create.buf
          = memManager.create.buf ++ [some (1, 8)]
      ∧ (memManager.Create memStorage () 8).state.create.cap = memManager.create.cap
      ∧ (memManager.Create memStorage () 8).state.update = memManager.update
      ∧ (memManager.Create memStorage () 8).state.delete = memManager.delete)
    ∧ ((memManager.Update memStorage () 0 8).ret = some (some (0, 8), none)
      ∧ (memManager.Update memStorage () 0 8).state.storageState
          = (memStorage.Update memManager.storageState () 0 8).2
      ∧ ((spied memManager []).Update (spy memStorage) () 0 8).state.storageState.2
          = [] ++ [Call.Update () 0 8]
      ∧ (memManager.Update memStorage () 0 8).state.update.buf
          = memManager.update.buf ++ [some (0, 8)]
      ∧ (memManager.Update memStorage () 0 8).state.update.cap = memManager.update.cap
      ∧ (memManager.Update memStorage () 0 8).state.create = memManager.create
      ∧ (memManager.Update memStorage () 0 8).state.delete = memManager.delete) :=
  ⟨(create_update_publish_once memStorage memManager () 0 8 (some (1, 8)) []).1
      (by decide) (by decide),
    (create_update_publish_once memStorage memManager () 0 8 (some (0, 8)) []).2
      (by decide) (by decide)⟩

/-- C3: when the delete channel is not full and the storage `Delete(id)` succeeds,
`manager.Delete` returns no error and appends exactly one event to the delete channel, whose
payload is the identifier `id` it was given; the create and update channels are unchanged. -/
theorem delete_publishes_id (σ : storage S Ctx TeaData Tea Err ID)
    (m : manager S Tea ID Sub) (ctx : Ctx) (id : ID)
    (hlen : m.delete.buf.length < m.delete.cap)
    (h : (σ.Delete m.storageState ctx id).1 = none) :
    (m.Delete σ ctx id).ret = some none
    ∧ (m.Delete σ ctx id).state.delete.buf = m.delete.buf ++ [id]
    ∧ (m.Delete σ ctx id).state.delete.cap = m.delete.cap
    ∧ (m.Delete σ ctx id).state.create = m.create
    ∧ (m.Delete σ ctx id).state.update = m.update := by
  simp [manager.Delete, Chan.send, hlen, h, Outcome.ret, Outcome.state]

theorem delete_publishes_id_witness :
    (memManager.Delete memStorage () 0).ret = some none
    ∧ (memManager.Delete memStorage () 0).state.delete.buf = memManager.delete.buf ++ [0]
    ∧ (memManager.Delete memStorage () 0).state.delete.cap = memManager.delete.cap
    ∧ (memManager.Delete memStorage () 0).state.create = memManager.create
    ∧ (memManager.Delete memStorage () 0).state.update = memManager.update :=
  delete_publishes_id memStorage memManager () 0 (by decide) (by decide)

/-- C4: `Get` and `List` are pure reads.  `Get(id)` returns exactly what the storage
`ReadRecord(id)` returns, `List(search)` exactly what the storage `ReadAllRecords` returns
for the search string (the empty string when `search` is nil), and neither changes an event
channel or a subscriber registry. -/
theorem get_list_pure_reads (σ : storage S Ctx TeaData Tea Err ID)
    (m : manager S Tea ID Sub) (ctx : Ctx) (id : ID) (search : Option String) :
    ((m.Get σ ctx id).1 = (σ.ReadRecord m.storageState ctx id).1
      ∧ (m.Get σ ctx id).2.create = m.create
      ∧ (m.Get σ ctx id).2.update = m.update
      ∧ (m.Get σ ctx id).2.delete = m.delete
      ∧ (m.Get σ ctx id).2.createSubscribers = m.createSubscribers
      ∧ (m.Get σ ctx id).2.updateSubscribers = m.updateSubscribers
      ∧ (m.Get σ ctx id).2.deleteSubscribers = m.deleteSubscribers)
    ∧ ((m.List σ ctx search).1 = (σ.ReadAllRecords m.storageState ctx (search.getD "")).1
      ∧ (m.List σ ctx search).2.create = m.create
      ∧ (m.List σ ctx search).2.update = m.update
      ∧ (m.List σ ctx search).2.delete = m.delete
      ∧ (m.List σ ctx search).2.createSubscribers = m.createSubscribers
      ∧ (m.List σ ctx search).2.updateSubscribers = m.updateSubscribers
      ∧ (m.List σ ctx search).2.deleteSubscribers = m.deleteSubscribers) := by
  refine ⟨by simp [manager.Get], ?_⟩
  cases search <;> simp [manager.List]

end ManagerProperties

section LoopProperties

variable {S Ctx TeaData Tea Err ID Sub MTea : Type}

/-- The trace of one iteration of the loop on a channel whose head is `ev`. -/
theorem loop_of_queue (F : Option Tea → MTea) (m : manager S Tea ID Sub) (k : Kind)
    (ev : Event Tea ID) (rest : List (Event Tea ID)) (h : m.queue k = ev :: rest) :
    ∃ m1, m.loop F k = some (m1,
        Action.RLock k :: ((m.subscribers k).map (fun el => Action.send k el (ev.payload F))
          ++ [Action.RUnlock k]))
      ∧ m1.queue k = rest
      ∧ (∀ k1, k1 ≠ k → m1.queue k1 = m.queue k1)
      ∧ (∀ k1, m1.subscribers k1 = m.subscribers k1)
      ∧ m1.storageState = m.storageState := by
  cases k
  · simp only [manager.queue] at h
    cases hb : m.create.buf with
    | nil => simp [hb] at h
    | cons t ts =>
      simp only [hb, List.map_cons, List.cons.injEq] at h
      obtain ⟨rfl, rfl⟩ := h
      refine ⟨{ m with create := { m.create with buf := ts } }, ?_, ?_, ?_, ?_, rfl⟩
      · simp [manager.loop, Chan.recv, hb, manager.subscribers, Event.payload]
      · simp [manager.queue]
      · intro k1 hk; cases k1 <;> simp_all [manager.queue]
      · intro k1; cases k1 <;> rfl
  · simp only [manager.queue] at h
    cases hb : m.update.buf with
    | nil => simp [hb] at h
    | cons t ts =>
      simp only [hb, List.map_cons, List.cons.injEq] at h
      obtain ⟨rfl, rfl⟩ := h
      refine ⟨{ m with update := { m.update with buf := ts } }, ?_, ?_, ?_, ?_, rfl⟩
      · simp [manager.loop, Chan.recv, hb, manager.subscribers, Event.payload]
      · simp [manager.queue]
      · intro k1 hk; cases k1 <;> simp_all [manager.queue]
      · intro k1; cases k1 <;> rfl
  · simp only [manager.queue] at h
    cases hb : m.delete.buf with
    | nil => simp [hb] at h
    | cons t ts =>
      simp only [hb, List.map_cons, List.cons.injEq] at h
      obtain ⟨rfl, rfl⟩ := h
      refine ⟨{ m with delete := { m.delete with buf := ts } }, ?_, ?_, ?_, ?_, rfl⟩
      · simp [manager.loop, Chan.recv, hb, manager.subscribers, Event.payload]
      · simp [manager.queue]
      · intro k1 hk; cases k1 <;> simp_all [manager.queue]
      · intro k1; cases k1 <;> rfl

/-- Filtering the fan-out of one payload for the subscriber `el`. -/
theorem filterMap_fanout [DecidableEq Sub] (el : Sub) (p : Payload MTea ID) (subs : List Sub) :
    (subs.map (fun x => (x, p))).filterMap (fun x => if x.1 = el then some x.2 else none)
      = List.replicate (subs.count el) p := by
  induction subs with
  | nil => rfl
  | cons a tl ih =>
    by_cases hae : a = el
    · subst hae
      simp [List.filterMap_cons, ih, List.replicate_succ]
    · have hne : ¬ (a == el) = true := by simpa using hae
      simp [List.filterMap_cons, hae, ih, List.count_cons, hne]

/-- The sends of kind `k1` in the body of the case of kind `k`. -/
theorem sends_case (k k1 : Kind) (p : Payload MTea ID) (subs : List Sub) :
    sends k1 (Action.RLock k :: (subs.map (fun el => Action.send k el p) ++ [Action.RUnlock k]))
      = if k = k1 then subs.map (fun el => (el, p)) else [] := by
  unfold sends
  by_cases hk : k = k1
  · subst hk
    simp [List.filterMap_cons, List.filterMap_append, List.filterMap_map, Function.comp_def]
    induction subs with
    | nil => rfl
    | cons a tl ih => simp [List.filterMap_cons, ih]
  · simp [List.filterMap_cons, List.filterMap_append, List.filterMap_map, Function.comp_def, hk]

/-- C5: in one iteration of the loop that dequeues the event `ev` of kind `k`, the sends
performed are exactly one send of the payload of `ev` to each subscriber of the registry of
kind `k`, in the order of that registry; no send of another kind is performed; so each
subscriber receives the payload as many times as it is listed (two subscribers `S1`, `S2`
on update both receive the same payload). -/
theorem loop_sends_once_to_each [DecidableEq Sub] (F : Option Tea → MTea)
    (m : manager S Tea ID Sub) (k : Kind) (ev : Event Tea ID) (rest : List (Event Tea ID))
    (h : m.queue k = ev :: rest) :
    ∃ m1 acts, m.loop F k = some (m1, acts)
      ∧ acts.filter Action.isSend
          = (m.subscribers k).map (fun el => Action.send k el (ev.payload F))
      ∧ (∀ k1, k1 ≠ k → sends k1 acts = [])
      ∧ (∀ el, receivedBy k el acts
          = List.replicate ((m.subscribers k).count el) (ev.payload F)) := by
  obtain ⟨m1, hloop, -⟩ := loop_of_queue F m k ev rest h
  refine ⟨m1, _, hloop, ?_, ?_, ?_⟩
  · simp [List.filter_cons, List.filter_append, Action.isSend, List.filter_map,
      Function.comp_def]
  · intro k1 hk
    rw [sends_case]
    simp [Ne.symm hk]
  · intro el
    unfold receivedBy
    rw [sends_case]
    simp only [if_true]
    exact filterMap_fanout el _ _

theorem loop_sends_once_to_each_witness :
    ∃ m1 acts, queuedManager.loop nameOf .update = some (m1, acts)
      ∧ acts.filter Action.isSend
          = (queuedManager.subscribers .update).map
              (fun el => Action.send .update el ((Event.Updated (some (0, 5))).payload nameOf))
      ∧ (∀ k1, k1 ≠ Kind.update → sends k1 acts = [])
      ∧ (∀ el, receivedBy .update el acts
          = List.replicate ((queuedManager.subscribers .update).count el)
              ((Event.Updated (some (0, 5)) : Event (Nat × Nat) Nat).payload nameOf)) :=
  loop_sends_once_to_each nameOf queuedManager .update (.Updated (some (0, 5))) [] (by decide)

/-- C6, as the code has it: in an iteration of the loop on the event `ev` of kind `k`, the
read lock of kind `k` is taken first and released last: the trace is `RLock k`, then the
sends to the subscribers in registry order, then `RUnlock k`.  The lock is held across
every send, and with at least one subscriber a send does occur while it is held. -/
theorem loop_holds_rlock_across_sends (F : Option Tea → MTea) (m : manager S Tea ID Sub)
    (k : Kind) (ev : Event Tea ID) (rest : List (Event Tea ID)) (h : m.queue k = ev :: rest) :
    ∃ m1 acts, m.loop F k = some (m1, acts)
      ∧ acts = Action.RLock k
          :: ((m.subscribers k).map (fun el => Action.send k el (ev.payload F))
            ++ [Action.RUnlock k])
      ∧ (m.subscribers k ≠ [] → sendUnderRLock k false acts = true) := by
  obtain ⟨m1, hloop, -⟩ := loop_of_queue F m k ev rest h
  refine ⟨m1, _, hloop, rfl, ?_⟩
  intro hne
  cases hs : m.subscribers k with
  | nil => exact absurd hs hne
  | cons el tl => simp [sendUnderRLock]

theorem loop_holds_rlock_across_sends_witness :
    ∃ m1 acts, queuedManager.loop nameOf .delete = some (m1, acts)
      ∧ acts = Action.RLock .delete
          :: ((queuedManager.subscribers .delete).map
              (fun el => Action.send .delete el
                ((Event.Deleted 0 : Event (Nat × Nat) Nat).payload nameOf))
            ++ [Action.RUnlock .delete])
      ∧ (queuedManager.subscribers .delete ≠ [] → sendUnderRLock .delete false acts = true) :=
  loop_holds_rlock_across_sends nameOf queuedManager .delete (.Deleted 0) [] (by decide)

/-- C6 fails as stated: in the iteration of the loop on the create event `(1, 8)` with the
subscribers `1` and `2`, both sends lie between `RLock` and `RUnlock`. -/
theorem rlock_released_before_sends_counterexample :
    (queuedManager.loop nameOf .create).map (fun x => x.2)
      = some [Action.RLock .create, Action.send .create 1 (.tea 8),
          Action.send .create 2 (.tea 8), Action.RUnlock .create]
    ∧ (queuedManager.loop nameOf .create).map (fun x => sendUnderRLock .create false x.2)
      = some true := by
  constructor
  · rfl
  · rfl

end LoopProperties

section SystemProperties

variable {S Ctx TeaData Tea Err ID Sub MTea : Type}

/-- A send on an event channel: what it changes when it proceeds. -/
theorem publish_some (m m1 : manager S Tea ID Sub) (ev : Event Tea ID)
    (h : m.publish ev = some m1) :
    (∀ k, m1.queue k = m.queue k ++ (if ev.kind = k then [ev] else []))
    ∧ (∀ k, m1.cap k = m.cap k)
    ∧ (∀ k, m1.subscribers k = m.subscribers k)
    ∧ m1.storageState = m.storageState
    ∧ (m.queue ev.kind).length < m.cap ev.kind := by
  cases ev with
  | Created t =>
    simp only [manager.publish, Chan.send] at h
    split_ifs at h with hlen
    simp only [Option.some.injEq] at h
    subst h
    refine ⟨fun k => ?_, fun k => ?_, fun k => ?_, rfl, ?_⟩
    · cases k <;> simp [manager.queue, Event.kind]
    · cases k <;> rfl
    · cases k <;> rfl
    · simpa [manager.queue, manager.cap, Event.kind] using hlen
  | Updated t =>
    simp only [manager.publish, Chan.send] at h
    split_ifs at h with hlen
    simp only [Option.some.injEq] at h
    subst h
    refine ⟨fun k => ?_, fun k => ?_, fun k => ?_, rfl, ?_⟩
    · cases k <;> simp [manager.queue, Event.kind]
    · cases k <;> rfl
    · cases k <;> rfl
    · simpa [manager.queue, manager.cap, Event.kind] using hlen
  | Deleted i =>
    simp only [manager.publish, Chan.send] at h
    split_ifs at h with hlen
    simp only [Option.some.injEq] at h
    subst h
    refine ⟨fun k => ?_, fun k => ?_, fun k => ?_, rfl, ?_⟩
    · cases k <;> simp [manager.queue, Event.kind]
    · cases k <;> rfl
    · cases k <;> rfl
    · simpa [manager.queue, manager.cap, Event.kind] using hlen

/-- A send on an event channel whose queue has reached the capacity does not proceed. -/
theorem publish_full (m : manager S Tea ID Sub) (ev : Event Tea ID)
    (h : m.cap ev.kind ≤ (m.queue ev.kind).length) : m.publish ev = none := by
  cases ev <;>
    · simp only [manager.queue, manager.cap, Event.kind, List.length_map] at h
      simp [manager.publish, Chan.send, Nat.not_lt.mpr h]

/-- Running `ls` and then one more step. -/
theorem exec_snoc [DecidableEq Tea] [DecidableEq ID] (σ : storage S Ctx TeaData Tea Err ID)
    (F : Option Tea → MTea) (ls : List (Label Ctx TeaData Tea ID)) (l : Label Ctx TeaData Tea ID)
    (st : System S Tea ID Sub MTea) :
    System.exec σ F st (ls ++ [l]) = (System.exec σ F st ls).bind (fun st1 => st1.step σ F l) := by
  induction ls generalizing st with
  | nil =>
    simp only [List.nil_append, System.exec, Option.some_bind]
    cases st.step σ F l <;> rfl
  | cons a tl ih =>
    simp only [List.cons_append, System.exec]
    cases st.step σ F a with
    | none => rfl
    | some st1 => exact ih st1

/-- The events published by `ls` followed by one more step. -/
theorem published_snoc (k : Kind) (ls : List (Label Ctx TeaData Tea ID))
    (l : Label Ctx TeaData Tea ID) :
    published k (ls ++ [l]) = published k ls ++ published k [l] := by
  simp [published, List.filterMap_append]

/-- A step taken by a caller: the storage call of a method, or the send that ends it. -/
theorem step_caller [DecidableEq Tea] [DecidableEq ID] (σ : storage S Ctx TeaData Tea Err ID)
    (F : Option Tea → MTea) (st st1 : System S Tea ID Sub MTea) (l : Label Ctx TeaData Tea ID)
    (h : st.step σ F l = some st1) (hl : l.isLoop = false) :
    (∀ k, st1.m.queue k = st.m.queue k ++ published k [l])
    ∧ (∀ k, st1.m.cap k = st.m.cap k)
    ∧ (∀ k, st1.m.subscribers k = st.m.subscribers k)
    ∧ st1.loop = st.loop ∧ st1.trace = st.trace := by
  cases l with
  | Create ctx data =>
    simp only [System.step] at h
    split at h <;>
      · simp only [Option.some.injEq] at h
        subst h
        refine ⟨fun k => ?_, fun k => ?_, fun k => ?_, rfl, rfl⟩
        · cases k <;> simp [manager.queue, published]
        · cases k <;> rfl
        · cases k <;> rfl
  | Update ctx id data =>
    simp only [System.step] at h
    split at h <;>
      · simp only [Option.some.injEq] at h
        subst h
        refine ⟨fun k => ?_, fun k => ?_, fun k => ?_, rfl, rfl⟩
        · cases k <;> simp [manager.queue, published]
        · cases k <;> rfl
        · cases k <;> rfl
  | Delete ctx id =>
    simp only [System.step] at h
    split at h <;>
      · simp only [Option.some.injEq] at h
        subst h
        refine ⟨fun k => ?_, fun k => ?_, fun k => ?_, rfl, rfl⟩
        · cases k <;> simp [manager.queue, published]
        · cases k <;> rfl
        · cases k <;> rfl
  | publish ev =>
    simp only [System.step] at h
    split_ifs at h with hmem
    cases hp : st.m.publish ev with
    | none => simp [hp] at h
    | some m1 =>
      simp only [hp, Option.some.injEq] at h
      subst h
      obtain ⟨hq, hc, hs, -, -⟩ := publish_some st.m m1 ev hp
      refine ⟨fun k => ?_, hc, hs, rfl, rfl⟩
      rw [hq k]
      by_cases hk : ev.kind = k <;> simp [published, List.filterMap_cons, hk]
  | select k => simp [Label.isLoop] at hl
  | act => simp [Label.isLoop] at hl

/-- With no step of the loop, the event channels hold exactly what was published, in
order, and the loop has done nothing. -/
theorem exec_callers_only [DecidableEq Tea] [DecidableEq ID]
    (σ : storage S Ctx TeaData Tea Err ID) (F : Option Tea → MTea)
    (ls : List (Label Ctx TeaData Tea ID)) (st0 st : System S Tea ID Sub MTea)
    (h : System.exec σ F st0 ls = some st) (hno : ∀ l ∈ ls, l.isLoop = false) :
    (∀ k, st.m.queue k = st0.m.queue k ++ published k ls)
    ∧ (∀ k, st.m.cap k = st0.m.cap k)
    ∧ (∀ k, st.m.subscribers k = st0.m.subscribers k)
    ∧ st.loop = st0.loop ∧ st.trace = st0.trace := by
  induction ls using List.reverseRecOn generalizing st with
  | nil =>
    simp only [System.exec, Option.some.injEq] at h
    subst h
    simp [published]
  | append_singleton tl l ih =>
    rw [exec_snoc] at h
    cases hm : System.exec σ F st0 tl with
    | none => simp [hm] at h
    | some st1 =>
      simp only [hm, Option.some_bind] at h
      obtain ⟨hq, hc, hs, hl, ht⟩ := ih st1 hm (fun x hx => hno x (by simp [hx]))
      obtain ⟨hq1, hc1, hs1, hl1, ht1⟩ := step_caller σ F st1 st l h (hno l (by simp))
      refine ⟨fun k => ?_, fun k => ?_, fun k => ?_, ?_, ?_⟩
      · rw [hq1, hq, published_snoc, List.append_assoc]
      · rw [hc1, hc]
      · rw [hs1, hs]
      · rw [hl1, hl]
      · rw [ht1, ht]

/-- C7: the three event channels built by `NewManager` start empty with capacity 100.  In
an execution from there with no step of the loop, the channel of each kind `k` holds exactly
the events published on it, at most 100; and once 100 have been published, no further send
of kind `k` is enabled, and a call of the method of kind `k` whose storage write succeeds
does not return (so it returns no error): it is parked on its send, with every queue,
the 100 events included, as it was. -/
theorem full_channel_blocks_publish [DecidableEq Tea] [DecidableEq ID]
    (σ : storage S Ctx TeaData Tea Err ID) (F : Option Tea → MTea) (s : S)
    (cs us ds : List Sub) (ls : List (Label Ctx TeaData Tea ID))
    (st : System S Tea ID Sub MTea) (k : Kind)
    (h : System.exec σ F (System.init s cs us ds) ls = some st)
    (hno : ∀ l ∈ ls, l.isLoop = false) :
    ((NewManager s cs us ds : manager S Tea ID Sub).create = { cap := 100, buf := [] }
      ∧ (NewManager s cs us ds : manager S Tea ID Sub).update = { cap := 100, buf := [] }
      ∧ (NewManager s cs us ds : manager S Tea ID Sub).delete = { cap := 100, buf := [] })
    ∧ st.m.cap k = 100
    ∧ st.m.queue k = published k ls
    ∧ (published k ls).length ≤ 100
    ∧ ((published k ls).length = 100 →
        (∀ ev : Event Tea ID, ev.kind = k → st.step σ F (.publish ev) = none)
        ∧ (k = .create → ∀ ctx data, (σ.WriteRecord st.m.storageState ctx data).1.2 = none →
            (st.m.Create σ ctx data).isBlocked = true
            ∧ (st.m.Create σ ctx data).ret = none
            ∧ ∀ k1, (st.m.Create σ ctx data).state.queue k1 = st.m.queue k1)
        ∧ (k = .update → ∀ ctx id data, (σ.Update st.m.storageState ctx id data).1.2 = none →
            (st.m.Update σ ctx id data).isBlocked = true
            ∧ (st.m.Update σ ctx id data).ret = none
            ∧ ∀ k1, (st.m.Update σ ctx id data).state.queue k1 = st.m.queue k1)
        ∧ (k = .delete → ∀ ctx id, (σ.Delete st.m.storageState ctx id).1 = none →
            (st.m.Delete σ ctx id).isBlocked = true
            ∧ (st.m.Delete σ ctx id).ret = none
            ∧ ∀ k1, (st.m.Delete σ ctx id).state.queue k1 = st.m.queue k1)) := by
  have hcap0 : ∀ k, (System.init s cs us ds : System S Tea ID Sub MTea).m.cap k = 100 := by
    intro k; cases k <;> rfl
  have hq0 : ∀ k, (System.init s cs us ds : System S Tea ID Sub MTea).m.queue k = [] := by
    intro k; cases k <;> rfl
  have hlen : ∀ (ls1 : List (Label Ctx TeaData Tea ID)) (st1 : System S Tea ID Sub MTea),
      System.exec σ F (System.init s cs us ds) ls1 = some st1 →
      (∀ l ∈ ls1, l.isLoop = false) →
      st1.m.cap k = 100 ∧ st1.m.queue k = published k ls1 ∧ (published k ls1).length ≤ 100 := by
    intro ls1
    induction ls1 using List.reverseRecOn with
    | nil =>
      intro st1 h1 _
      obtain ⟨hq, hc, -⟩ := exec_callers_only σ F [] _ st1 h1 (by simp)
      exact ⟨by rw [hc, hcap0], by rw [hq, hq0]; rfl, by simp [published]⟩
    | append_singleton tl l ih =>
      intro st1 h1 hno1
      obtain ⟨hq, hc, -⟩ := exec_callers_only σ F _ _ st1 h1 hno1
      refine ⟨by rw [hc, hcap0], by rw [hq, hq0]; rfl, ?_⟩
      rw [exec_snoc] at h1
      cases hm : System.exec σ F (System.init s cs us ds) tl with
      | none => simp [hm] at h1
      | some st2 =>
        simp only [hm, Option.some_bind] at h1
        obtain ⟨hc2, hq2, hl2⟩ := ih st2 hm (fun x hx => hno1 x (by simp [hx]))
        rw [published_snoc]
        cases l with
        | publish ev =>
          by_cases hk : ev.kind = k
          · simp only [System.step] at h1
            split_ifs at h1 with hmem
            cases hp : st2.m.publish ev with
            | none => simp [hp] at h1
            | some m1 =>
              obtain ⟨-, -, -, -, hlt⟩ := publish_some st2.m m1 ev hp
              rw [hk, hq2, hc2] at hlt
              simp only [published, List.filterMap_cons, hk, if_true, List.filterMap_nil,
                List.length_append, List.length_singleton]
              simp only [published] at hlt
              omega
          · simpa [published, List.filterMap_cons, hk] using hl2
        | Create _ _ => simpa [published] using hl2
        | Update _ _ _ => simpa [published] using hl2
        | Delete _ _ => simpa [published] using hl2
        | select _ => simpa [published] using hl2
        | act => simpa [published] using hl2
  obtain ⟨hc, hq, hl⟩ := hlen ls st h hno
  refine ⟨⟨rfl, rfl, rfl⟩, hc, hq, hl, fun hN => ?_⟩
  have hfull : st.m.cap k ≤ (st.m.queue k).length := by rw [hc, hq, hN]
  refine ⟨fun ev hk => ?_, fun hk ctx data hw => ?_, fun hk ctx id data hw => ?_,
    fun hk ctx id hw => ?_⟩
  · subst hk
    simp [System.step, publish_full st.m ev hfull]
  · subst hk
    have hf : ¬ st.m.create.buf.length < st.m.create.cap := by
      simpa [manager.cap, manager.queue] using hfull
    refine ⟨?_, ?_, fun k1 => ?_⟩
    · simp [manager.Create, hw, Chan.send, hf, Outcome.isBlocked]
    · simp [manager.Create, hw, Chan.send, hf, Outcome.ret]
    · cases k1 <;> simp [manager.Create, hw, Chan.send, hf, Outcome.state, manager.queue]
  · subst hk
    have hf : ¬ st.m.update.buf.length < st.m.update.cap := by
      simpa [manager.cap, manager.queue] using hfull
    refine ⟨?_, ?_, fun k1 => ?_⟩
    · simp [manager.Update, hw, Chan.send, hf, Outcome.isBlocked]
    · simp [manager.Update, hw, Chan.send, hf, Outcome.ret]
    · cases k1 <;> simp [manager.Update, hw, Chan.send, hf, Outcome.state, manager.queue]
  · subst hk
    have hf : ¬ st.m.delete.buf.length < st.m.delete.cap := by
      simpa [manager.cap, manager.queue] using hfull
    refine ⟨?_, ?_, fun k1 => ?_⟩
    · simp [manager.Delete, hw, Chan.send, hf, Outcome.isBlocked]
    · simp [manager.Delete, hw, Chan.send, hf, Outcome.ret]
    · cases k1 <;> simp [manager.Delete, hw, Chan.send, hf, Outcome.state, manager.queue]

set_option maxRecDepth 100000 in
theorem full_channel_blocks_publish_witness :
    fullSystem.m.cap .create = 100
    ∧ fullSystem.m.queue .create = published .create hundredCreates
    ∧ (published .create hundredCreates).length ≤ 100
    ∧ (∀ ev : Event (Nat × Nat) Nat, ev.kind = .create →
        fullSystem.step memStorage nameOf (.publish ev) = none)
    ∧ (∀ ctx data, (memStorage.WriteRecord fullSystem.m.storageState ctx data).1.2 = none →
        (fullSystem.m.Create memStorage ctx data).isBlocked = true
        ∧ (fullSystem.m.Create memStorage ctx data).ret = none
        ∧ ∀ k1, (fullSystem.m.Create memStorage ctx data).state.queue k1
            = fullSystem.m.queue k1) :=
  have H := full_channel_blocks_publish memStorage nameOf [] [1, 2] [3, 4] [5, 6]
    hundredCreates fullSystem .create (by rfl) (by decide)
  ⟨H.2.1, H.2.2.1, H.2.2.2.1, (H.2.2.2.2 (by rfl)).1, (H.2.2.2.2 (by rfl)).2.1 rfl⟩

/-- The loop cannot take the case of kind `k` while the channel of kind `k` is empty. -/
theorem loop_of_empty (F : Option Tea → MTea) (m : manager S Tea ID Sub) (k : Kind)
    (h : m.queue k = []) : m.loop F k = none := by
  cases k <;>
    · simp only [manager.queue, List.map_eq_nil_iff] at h
      simp [manager.loop, Chan.recv, h]

/-- The step in which the loop takes the case of kind `k`. -/
theorem step_select [DecidableEq Tea] [DecidableEq ID] (σ : storage S Ctx TeaData Tea Err ID)
    (F : Option Tea → MTea) (st st1 : System S Tea ID Sub MTea) (k : Kind)
    (h : st.step σ F (.select k) = some st1) :
    st.loop = []
    ∧ ∃ ev rest, st.m.queue k = ev :: rest
      ∧ st1.m.queue k = rest
      ∧ (∀ k1, k1 ≠ k → st1.m.queue k1 = st.m.queue k1)
      ∧ (∀ k1, st1.m.subscribers k1 = st.m.subscribers k1)
      ∧ st1.loop = Action.RLock k
          :: ((st.m.subscribers k).map (fun el => Action.send k el (ev.payload F))
            ++ [Action.RUnlock k])
      ∧ st1.trace = st.trace := by
  simp only [System.step] at h
  cases hl : st.loop with
  | cons a rest => simp [hl] at h
  | nil =>
    simp only [hl] at h
    refine ⟨rfl, ?_⟩
    cases hq : st.m.queue k with
    | nil => simp [loop_of_empty F st.m k hq] at h
    | cons ev rest =>
      obtain ⟨m1, hloop, h1, h2, h3, -⟩ := loop_of_queue F st.m k ev rest hq
      simp only [hloop, Option.some.injEq] at h
      subst h
      exact ⟨ev, rest, rfl, h1, h2, h3, rfl, rfl⟩

/-- The step in which the loop performs the next statement of its case. -/
theorem step_act [DecidableEq Tea] [DecidableEq ID] (σ : storage S Ctx TeaData Tea Err ID)
    (F : Option Tea → MTea) (st st1 : System S Tea ID Sub MTea)
    (h : st.step σ F .act = some st1) :
    ∃ a rest, st.loop = a :: rest ∧ st1.loop = rest ∧ st1.trace = st.trace ++ [a]
      ∧ st1.m = st.m := by
  simp only [System.step] at h
  cases hl : st.loop with
  | nil => simp [hl] at h
  | cons a rest =>
    simp only [hl, Option.some.injEq] at h
    subst h
    exact ⟨a, rest, rfl, rfl, rfl, rfl⟩

/-- The sends in a concatenation of traces. -/
theorem sends_append (k : Kind) (xs ys : List (Action MTea ID Sub)) :
    sends k (xs ++ ys) = sends k xs ++ sends k ys := by
  simp [sends, List.filterMap_append]

/-- The invariant of the system: on each kind, what was published is what the loop has
dequeued followed by what is still queued, and the sends the loop has performed, followed
by those left in the case it is in, are the complete fan-outs of the dequeued events. -/
theorem exec_invariant [DecidableEq Tea] [DecidableEq ID]
    (σ : storage S Ctx TeaData Tea Err ID) (F : Option Tea → MTea) (s : S)
    (cs us ds : List Sub) (ls : List (Label Ctx TeaData Tea ID))
    (st : System S Tea ID Sub MTea)
    (h : System.exec σ F (System.init s cs us ds) ls = some st) (k : Kind) :
    st.m.subscribers k = (NewManager s cs us ds : manager S Tea ID Sub).subscribers k
    ∧ ∃ D, published k ls = D ++ st.m.queue k
      ∧ sends k st.trace ++ sends k st.loop
        = D.flatMap (fun ev => (st.m.subscribers k).map (fun el => (el, ev.payload F))) := by
  induction ls using List.reverseRecOn generalizing st k with
  | nil =>
    simp only [System.exec, Option.some.injEq] at h
    subst h
    refine ⟨rfl, [], ?_, ?_⟩
    · cases k <;> rfl
    · simp [System.init, sends]
  | append_singleton tl l ih =>
    rw [exec_snoc] at h
    cases hm : System.exec σ F (System.init s cs us ds) tl with
    | none => simp [hm] at h
    | some st1 =>
      simp only [hm, Option.some_bind] at h
      obtain ⟨hs, D, hD, hsend⟩ := ih st1 hm k
      rw [published_snoc]
      by_cases hl : l.isLoop = false
      · obtain ⟨hq1, -, hs1, hl1, ht1⟩ := step_caller σ F st1 st l h hl
        refine ⟨by rw [hs1, hs], D, ?_, ?_⟩
        · rw [hq1, hD, List.append_assoc]
        · rw [hl1, ht1, hs1, hsend]
      · cases l with
        | Create _ _ => simp [Label.isLoop] at hl
        | Update _ _ _ => simp [Label.isLoop] at hl
        | Delete _ _ => simp [Label.isLoop] at hl
        | publish _ => simp [Label.isLoop] at hl
        | select k1 =>
          obtain ⟨hidle, ev, rest, hq, hq1, hq2, hs1, hloop, ht⟩ := step_select σ F st1 st k1 h
          have hpub : published k ([Label.select k1] : List (Label Ctx TeaData Tea ID)) = [] :=
            rfl
          rw [hpub, List.append_nil]
          rw [hidle] at hsend
          by_cases hk : k1 = k
          · subst hk
            refine ⟨by rw [hs1, hs], D ++ [ev], ?_, ?_⟩
            · rw [hD, hq, hq1]; simp
            · rw [hloop, ht, sends_case, if_pos rfl, hs1]
              simp only [sends, List.filterMap_nil, List.append_nil] at hsend
              simp only [sends]
              rw [hsend]
              simp [List.flatMap_append]
          · refine ⟨by rw [hs1, hs], D, ?_, ?_⟩
            · rw [hD, hq2 k (Ne.symm hk)]
            · rw [hloop, ht, sends_case, if_neg hk, hs1]
              simpa [sends] using hsend
        | act =>
          obtain ⟨a, rest, hloop, hloop1, ht, hmm⟩ := step_act σ F st1 st h
          have hpub : published k ([Label.act] : List (Label Ctx TeaData Tea ID)) = [] := rfl
          rw [hpub, List.append_nil]
          refine ⟨by rw [hmm, hs], D, by rw [hmm, hD], ?_⟩
          rw [hloop1, ht, hmm, sends_append, List.append_assoc, ← sends_append,
            List.singleton_append, ← hloop, hsend]

/-- What one subscriber gets out of the complete fan-outs of the events `D`. -/
theorem filterMap_fanouts [DecidableEq Sub] (F : Option Tea → MTea) (el : Sub)
    (subs : List Sub) (D : List (Event Tea ID)) :
    (D.flatMap (fun ev => subs.map (fun x => (x, ev.payload F)))).filterMap
        (fun x => if x.1 = el then some x.2 else none)
      = D.flatMap (fun ev => List.replicate (subs.count el) (ev.payload F)) := by
  induction D with
  | nil => rfl
  | cons ev tl ih =>
    simp only [List.flatMap_cons, List.filterMap_append, ih]
    rw [filterMap_fanout]

/-- C8: in every execution of callers and the loop from the initial state, what a
subscriber has received on kind `k` is an initial segment of the payloads of the events
published on kind `k`, in the order of their sends on the event channel, each payload as
many times as the subscriber is listed in the registry; for a registry without repetition,
an initial segment of the published payloads themselves.  So events are received first in,
first out. -/
theorem subscriber_receives_in_publish_order [DecidableEq Tea] [DecidableEq ID]
    [DecidableEq Sub] (σ : storage S Ctx TeaData Tea Err ID) (F : Option Tea → MTea) (s : S)
    (cs us ds : List Sub) (ls : List (Label Ctx TeaData Tea ID))
    (st : System S Tea ID Sub MTea) (k : Kind) (el : Sub)
    (h : System.exec σ F (System.init s cs us ds) ls = some st) :
    receivedBy k el st.trace
        <+: (published k ls).flatMap (fun ev => List.replicate
              (((NewManager s cs us ds : manager S Tea ID Sub).subscribers k).count el)
              (ev.payload F))
    ∧ (((NewManager s cs us ds : manager S Tea ID Sub).subscribers k).Nodup →
        receivedBy k el st.trace <+: (published k ls).map (Event.payload F)) := by
  obtain ⟨hs, D, hD, hsend⟩ := exec_invariant σ F s cs us ds ls st h k
  rw [hs] at hsend
  have hrec : receivedBy k el st.trace ++ receivedBy k el st.loop
      = D.flatMap (fun ev => List.replicate
          (((NewManager s cs us ds : manager S Tea ID Sub).subscribers k).count el)
          (ev.payload F)) := by
    unfold receivedBy
    rw [← List.filterMap_append, hsend, filterMap_fanouts]
  have hgen : receivedBy k el st.trace
      <+: (published k ls).flatMap (fun ev => List.replicate
            (((NewManager s cs us ds : manager S Tea ID Sub).subscribers k).count el)
            (ev.payload F)) := by
    rw [hD, List.flatMap_append, ← hrec, List.append_assoc]
    exact List.prefix_append _ _
  refine ⟨hgen, fun hnd => ?_⟩
  have hcount := List.nodup_iff_count_le_one.mp hnd el
  rcases Nat.le_one_iff_eq_zero_or_eq_one.mp hcount with h0 | h1
  · rw [h0] at hgen
    have hnil : ∀ D1 : List (Event Tea ID),
        D1.flatMap (fun ev => List.replicate 0 (ev.payload F)) = [] := by
      intro D1
      induction D1 with
      | nil => rfl
      | cons ev tl ih => simp [List.flatMap_cons, ih]
    rw [hnil] at hgen
    rw [List.prefix_nil.mp hgen]
    exact List.nil_prefix
  · rw [h1] at hgen
    have hmap : ∀ D1 : List (Event Tea ID),
        D1.flatMap (fun ev => List.replicate 1 (ev.payload F)) = D1.map (Event.payload F) := by
      intro D1
      induction D1 with
      | nil => rfl
      | cons ev tl ih => simpa [List.flatMap_cons] using ih
    rw [hmap] at hgen
    exact hgen

theorem subscriber_receives_in_publish_order_witness :
    receivedBy .create 2 mixedSystem.trace
        <+: (published .create mixedRun).flatMap (fun ev => List.replicate
              (((NewManager [] [1, 2] [3, 4] [5, 6] :
                manager (List (Nat × Nat)) (Nat × Nat) Nat Nat).subscribers .create).count 2)
              (ev.payload nameOf))
    ∧ receivedBy .create 2 mixedSystem.trace
        <+: (published .create mixedRun).map (Event.payload nameOf) :=
  have H := subscriber_receives_in_publish_order memStorage nameOf [] [1, 2] [3, 4] [5, 6]
    mixedRun mixedSystem .create 2 (by rfl)
  ⟨H.1, H.2 (by decide)⟩

/-- C9 fails as stated: on the empty store with subscribers `1` and `2` on create,
`Create` returns the record `(0, 8)`; the state it returns in is reachable, its event is
still in the create channel, and no subscriber has received anything. -/
theorem create_returns_before_delivery_counterexample :
    ((NewManager [] [1, 2] [3, 4] [5, 6] : manager (List (Nat × Nat)) (Nat × Nat) Nat Nat).Create
        memStorage () 8) = .returned (some (0, 8), none) createdSystem.m
    ∧ System.exec memStorage nameOf (System.init [] [1, 2] [3, 4] [5, 6])
        [.Create () 8, .publish (.Created (some (0, 8)))] = some createdSystem
    ∧ createdSystem.m.queue .create = [.Created (some (0, 8))]
    ∧ createdSystem.pending = []
    ∧ 1 ∈ createdSystem.m.createSubscribers
    ∧ receivedBy .create 1 createdSystem.trace = [] := by
  refine ⟨rfl, rfl, rfl, rfl, by decide, rfl⟩

/-- Running `l1` and then `l2`. -/
theorem exec_append [DecidableEq Tea] [DecidableEq ID] (σ : storage S Ctx TeaData Tea Err ID)
    (F : Option Tea → MTea) (l1 l2 : List (Label Ctx TeaData Tea ID))
    (st : System S Tea ID Sub MTea) :
    System.exec σ F st (l1 ++ l2)
      = (System.exec σ F st l1).bind (fun st1 => System.exec σ F st1 l2) := by
  induction l1 generalizing st with
  | nil => rfl
  | cons a tl ih =>
    simp only [List.cons_append, System.exec]
    cases st.step σ F a with
    | none => rfl
    | some st1 => exact ih st1

/-- The loop finishing the case it is in: it performs the statements left, in order. -/
theorem exec_acts [DecidableEq Tea] [DecidableEq ID] (σ : storage S Ctx TeaData Tea Err ID)
    (F : Option Tea → MTea) (acts : List (Action MTea ID Sub)) (st : System S Tea ID Sub MTea)
    (h : st.loop = acts) :
    System.exec σ F st (List.replicate acts.length Label.act)
      = some { st with loop := [], trace := st.trace ++ acts } := by
  induction acts generalizing st with
  | nil =>
    simp only [List.length_nil, List.replicate_zero, System.exec, List.append_nil]
    rw [← h]
  | cons a rest ih =>
    simp only [List.length_cons, List.replicate_succ, System.exec, System.step, h]
    rw [ih _ rfl]
    simp

/-- The loop draining the channel of kind `k`: starting at its `select` with the events
`q` queued, one iteration per event performs, in queue order, the body of the case on each
of them, and leaves the channel empty. -/
theorem exec_drain [DecidableEq Tea] [DecidableEq ID] (σ : storage S Ctx TeaData Tea Err ID)
    (F : Option Tea → MTea) (k : Kind) (q : List (Event Tea ID))
    (st : System S Tea ID Sub MTea) (hidle : st.loop = []) (hq : st.m.queue k = q) :
    ∃ st2, System.exec σ F st (drain k ((st.m.subscribers k).length + 2) q.length) = some st2
      ∧ st2.trace = st.trace ++ q.flatMap (caseBody F k (st.m.subscribers k))
      ∧ st2.loop = []
      ∧ st2.m.queue k = [] := by
  induction q generalizing st with
  | nil => exact ⟨st, rfl, by simp, hidle, hq⟩
  | cons ev rest ih =>
    obtain ⟨m1, hloop, h1, -, h3, -⟩ := loop_of_queue F st.m k ev rest hq
    have hstep : st.step σ F (.select k)
        = some { st with m := m1, loop := caseBody F k (st.m.subscribers k) ev } := by
      simp [System.step, hidle, hloop, caseBody]
    have hlen : (caseBody F k (st.m.subscribers k) ev).length
        = (st.m.subscribers k).length + 2 := by
      simp [caseBody]
    obtain ⟨st2, he, ht, hl, hq2⟩ := ih
      { st with m := m1, loop := [], trace := st.trace ++ caseBody F k (st.m.subscribers k) ev }
      rfl h1
    refine ⟨st2, ?_, ?_, hl, hq2⟩
    · have hd : ∀ n j : Nat, (drain k n (j + 1) : List (Label Ctx TeaData Tea ID))
          = Label.select k :: (List.replicate n Label.act ++ drain k n j) := by
        intro n j
        simp [drain, List.replicate_succ]
      have he2 : System.exec σ F
          { st with m := m1, loop := [],
                    trace := st.trace ++ caseBody F k (st.m.subscribers k) ev }
          (drain k ((caseBody F k (st.m.subscribers k) ev).length) rest.length) = some st2 := by
        rw [hlen, ← he]
        simp only [h3 k]
      have hc : ∀ (l : Label Ctx TeaData Tea ID) (ls : List (Label Ctx TeaData Tea ID)),
          System.exec σ F st (l :: ls)
            = (st.step σ F l).bind (fun st1 => System.exec σ F st1 ls) := by
        intro l ls
        simp only [System.exec]
        cases st.step σ F l <;> rfl
      rw [List.length_cons, hd, ← hlen, hc, hstep, Option.some_bind, exec_append,
        exec_acts σ F _ _ rfl, Option.some_bind]
      exact he2
    · rw [ht]
      simp [h3 k, List.flatMap_cons]

/-- What a subscriber receives over a concatenation of traces. -/
theorem receivedBy_append [DecidableEq Sub] (k : Kind) (el : Sub)
    (xs ys : List (Action MTea ID Sub)) :
    receivedBy k el (xs ++ ys) = receivedBy k el xs ++ receivedBy k el ys := by
  simp [receivedBy, sends_append, List.filterMap_append]

/-- What a subscriber receives in the body of one case. -/
theorem receivedBy_caseBody [DecidableEq Sub] (F : Option Tea → MTea) (k : Kind) (el : Sub)
    (subs : List Sub) (ev : Event Tea ID) :
    receivedBy k el (caseBody F k subs ev) = List.replicate (subs.count el) (ev.payload F) := by
  unfold receivedBy caseBody
  rw [sends_case, if_pos rfl]
  exact filterMap_fanout el _ _

/-- C9, as the code has it: when the storage write of `Create` succeeds with `r1` and the
create channel has room, `Create` returns `r1` as soon as the event for `r1` is at the tail
of the create channel; the call itself sends nothing to any subscriber.  The subscribers
receive the event later: once the loop has finished the case it is in and has run one
iteration for each event queued on create, that of `r1` last, every create subscriber has
received the payload of `r1`, as the last thing it received. -/
theorem create_returns_after_enqueue [DecidableEq Tea] [DecidableEq ID] [DecidableEq Sub]
    (σ : storage S Ctx TeaData Tea Err ID) (F : Option Tea → MTea)
    (st : System S Tea ID Sub MTea) (ctx : Ctx) (data : TeaData) (r1 : Option Tea)
    (hw : (σ.WriteRecord st.m.storageState ctx data).1 = (r1, none))
    (hroom : st.m.create.buf.length < st.m.create.cap) :
    ∃ st1 st2,
      System.exec σ F st [.Create ctx data, .publish (.Created r1)] = some st1
      ∧ st.m.Create σ ctx data = .returned (r1, none) st1.m
      ∧ st1.trace = st.trace
      ∧ st1.m.queue .create = st.m.queue .create ++ [Event.Created r1]
      ∧ System.exec σ F st1
          (List.replicate st.loop.length .act
            ++ drain .create (st.m.createSubscribers.length + 2) (st.m.create.buf.length + 1))
          = some st2
      ∧ st2.trace = st.trace ++ st.loop
          ++ (st.m.queue .create ++ [Event.Created r1]).flatMap
              (caseBody F .create st.m.createSubscribers)
      ∧ ∀ el ∈ st.m.createSubscribers,
          (receivedBy .create el st2.trace).getLast? = some (.tea (F r1)) := by
  have h1 : (σ.WriteRecord st.m.storageState ctx data).1.1 = r1 := by rw [hw]
  have h2 : (σ.WriteRecord st.m.storageState ctx data).1.2 = none := by rw [hw]
  let m1 : manager S Tea ID Sub :=
    { st.m with
      storageState := (σ.WriteRecord st.m.storageState ctx data).2
      create := { st.m.create with buf := st.m.create.buf ++ [r1] } }
  let st1 : System S Tea ID Sub MTea :=
    { st with m := m1, pending := (st.pending ++ [Event.Created r1]).erase (Event.Created r1) }
  have hexec : System.exec σ F st [.Create ctx data, .publish (.Created r1)] = some st1 := by
    simp [System.exec, System.step, h1, h2, manager.publish, Chan.send, hroom, st1, m1]
  have hq1 : st1.m.queue .create = st.m.queue .create ++ [Event.Created r1] := by
    simp [st1, m1, manager.queue]
  have hacts := exec_acts σ F st.loop st1 rfl
  obtain ⟨st2, hdrain, ht2, -, -⟩ := exec_drain σ F .create
    (st.m.queue .create ++ [Event.Created r1])
    { st1 with loop := [], trace := st1.trace ++ st.loop } rfl hq1
  have hlen : (st.m.queue .create ++ [Event.Created r1]).length
      = st.m.create.buf.length + 1 := by
    simp [manager.queue]
  have ht : st2.trace = st.trace ++ st.loop
      ++ (st.m.queue .create ++ [Event.Created r1]).flatMap
          (caseBody F .create st.m.createSubscribers) := ht2
  refine ⟨st1, st2, hexec, ?_, rfl, hq1, ?_, ht, ?_⟩
  · simp [manager.Create, h1, h2, Chan.send, hroom, st1, m1]
  · rw [exec_append, hacts, Option.some_bind, ← hlen]
    exact hdrain
  · intro el hel
    rw [ht, List.flatMap_append, ← List.append_assoc, receivedBy_append]
    simp only [List.flatMap_cons, List.flatMap_nil, List.append_nil]
    rw [receivedBy_caseBody]
    obtain ⟨n, hn⟩ : ∃ n, List.count el st.m.createSubscribers = n + 1 :=
      Nat.exists_eq_succ_of_ne_zero (by
        have := List.count_pos_iff.mpr hel
        omega)
    rw [hn, List.replicate_succ', ← List.append_assoc]
    simp [Event.payload]

theorem create_returns_after_enqueue_witness :
    ∃ st1 st2,
      System.exec memStorage nameOf
          (System.init [] [1, 2] [3, 4] [5, 6] : System (List (Nat × Nat)) (Nat × Nat) Nat Nat Nat)
          [.Create () 8, .publish (.Created (some (0, 8)))] = some st1
      ∧ (System.init [] [1, 2] [3, 4] [5, 6] :
            System (List (Nat × Nat)) (Nat × Nat) Nat Nat Nat).m.Create memStorage () 8
          = .returned (some (0, 8), none) st1.m
      ∧ st1.trace = []
      ∧ st1.m.queue .create = [] ++ [.Created (some (0, 8))]
      ∧ System.exec memStorage nameOf st1
          (List.replicate 0 .act ++ drain .create (2 + 2) (0 + 1)) = some st2
      ∧ st2.trace = [] ++ [] ++ ([] ++ [Event.Created (some (0, 8))]).flatMap
          (caseBody nameOf .create [1, 2])
      ∧ ∀ el ∈ [1, 2], (receivedBy .create el st2.trace).getLast? = some (.tea 8) :=
  create_returns_after_enqueue memStorage nameOf (System.init [] [1, 2] [3, 4] [5, 6]) () 8
    (some (0, 8)) (by rfl) (by decide)

end SystemProperties

section HandlerProperties

variable {S TeaData Tea Err Bytes : Type}

/-- With an empty identifier each of the three handlers emits the single error response
400 "empty id" and leaves the storage state as it was. -/
theorem handlers_empty_id (errorEmptyID : Err) (Unmarshal : Bytes → TeaData × Option Err)
    (m : RecordManager S TeaData Tea Err) (s : S) (r : Request Bytes Err) (h : r.id = "") :
    m.ReadRecord errorEmptyID s r = ([.ResponseError ⟨StatusBadRequest, errorEmptyID⟩], s)
    ∧ m.UpdateRecord errorEmptyID Unmarshal s r
        = ([.ResponseError ⟨StatusBadRequest, errorEmptyID⟩], s)
    ∧ m.DeleteRecord errorEmptyID s r
        = ([.ResponseError ⟨StatusBadRequest, errorEmptyID⟩], s) := by
  simp [RecordManager.ReadRecord, RecordManager.UpdateRecord, RecordManager.DeleteRecord, h]

/-- When the storage call fails, `ReadRecord` and `UpdateRecord` emit the error response
500 and nothing else. -/
theorem read_update_storage_error (errorEmptyID : Err) (Unmarshal : Bytes → TeaData × Option Err)
    (m : RecordManager S TeaData Tea Err) (s : S) (r : Request Bytes Err) (e : Err)
    (h : r.id ≠ "") :
    ((m.Storage.ReadRecord s r.id).1.2 = some e →
      (m.ReadRecord errorEmptyID s r).1 = [.ResponseError ⟨StatusInternalServerError, e⟩])
    ∧ (r.body.2 = none → (Unmarshal r.body.1).2 = none →
      (m.Storage.Update s r.id (Unmarshal r.body.1).1).1.2 = some e →
      (m.UpdateRecord errorEmptyID Unmarshal s r).1
        = [.ResponseError ⟨StatusInternalServerError, e⟩]) := by
  refine ⟨fun he => ?_, fun hb hu he => ?_⟩
  · simp [RecordManager.ReadRecord, h, he]
  · simp [RecordManager.UpdateRecord, h, hb, hu, he]

/-- When the storage call fails, `DeleteRecord` emits the error response 500 and then goes
on to emit the success payload as well. -/
theorem delete_storage_error (errorEmptyID : Err) (m : RecordManager S TeaData Tea Err) (s : S)
    (r : Request Bytes Err) (e : Err) (h : r.id ≠ "") (he : (m.Storage.Delete s r.id).1 = some e)
    (ht : m.Response (.id r.id) = none) :
    (m.DeleteRecord errorEmptyID s r).1
      = [.ResponseError ⟨StatusInternalServerError, e⟩, .Response (.id r.id)] := by
  simp [RecordManager.DeleteRecord, h, he, ht]

/-- C10 at a failing input: the request for the unknown identifier `r9`, on which each
storage call fails with "not found".  `ReadRecord` and `UpdateRecord` emit the single error
response 500; `DeleteRecord` emits the error response 500 and then the success payload. -/
theorem delete_record_emits_payload_after_error :
    (memRecords.DeleteRecord "empty id" [("r1", 7)] unknownIdRequest).1
      = [.ResponseError ⟨500, "not found"⟩, .Response (.id "r9")]
    ∧ (memRecords.ReadRecord "empty id" [("r1", 7)] unknownIdRequest).1
      = [.ResponseError ⟨500, "not found"⟩]
    ∧ (memRecords.UpdateRecord "empty id" sumBytes [("r1", 7)] unknownIdRequest).1
      = [.ResponseError ⟨500, "not found"⟩] := by
  refine ⟨?_, ?_, ?_⟩ <;> decide

end HandlerProperties

end TeaElephant
